import Mathlib

/-!
Verification of the Cincinnati update-graph services against their
natural-language specification.

The definitions below are a shallow embedding of the Rust sources:

* commons/src/lib.rs          (query/content-type gates, path-prefix parsing)
* graph-builder/src/graph.rs  (HTTP index handler, periodic scrape loop)
* policy-engine/src/graph.rs  (HTTP index handler, pipeline error conversion)
* cincinnati/src/plugins/internal/node_remove.rs
* cincinnati/src/plugins/internal/metadata_fetch_quay.rs

The cincinnati graph data model (crate cincinnati, module not shipped under
src/) and the pipeline driver cincinnati::plugins::process are modelled from
the specification, as marked on the individual definitions.

Machine strings are Lean String, byte-level UTF-8 coding is elided: percent
decoding maps a decoded byte to the character of the same code point.
-/

namespace Cincinnati

/-- Results of fallible operations compare decidably. -/
instance {ε α : Type} [DecidableEq ε] [DecidableEq α] :
    DecidableEq (Except ε α) := fun x y =>
  match x, y with
  | .error e1, .error e2 => decidable_of_iff (e1 = e2) (by simp)
  | .error _, .ok _ => .isFalse (by simp)
  | .ok _, .error _ => .isFalse (by simp)
  | .ok a, .ok b => decidable_of_iff (a = b) (by simp)

/-- Modelled from the spec: the error taxonomy of commons/src/errors.rs
(the file is not under src/); the variants are those of spec section 7
together with their uses in commons/src/lib.rs, policy-engine/src/graph.rs
and graph-builder/src/graph.rs. -/
inductive GraphError where
  | InvalidContentType
  | MissingParams (params : List String)
  | InvalidParams (details : String)
  | FailedUpstreamFetch (details : String)
  | FailedUpstreamParse (details : String)
  | FailedPluginExecution (details : String)
  | FailedJsonOut (details : String)
  deriving Repr, DecidableEq

/-- cincinnati::CONTENT_TYPE, the media type served by both services
(spec sections 4.F and 6: application/json). -/
def CONTENT_TYPE : String := "application/json"

/-- Value of a hexadecimal digit character, as in percent decoding. -/
def hexVal (c : Char) : Option Nat :=
  if ('0' ≤ c ∧ c ≤ '9') then some (c.toNat - 48)
  else if ('a' ≤ c ∧ c ≤ 'f') then some (c.toNat - 87)
  else if ('A' ≤ c ∧ c ≤ 'F') then some (c.toNat - 55)
  else none

/-- Percent decoding as done by the url crate used in commons/src/lib.rs:
a percent sign followed by two hex digits becomes the coded byte, any
malformed escape is passed through verbatim. -/
def percentDecode : List Char → List Char
  | [] => []
  | '%' :: a :: b :: rest =>
    match hexVal a, hexVal b with
    | some ha, some hb => Char.ofNat (16 * ha + hb) :: percentDecode rest
    | _, _ => '%' :: percentDecode (a :: b :: rest)
  | c :: rest => c :: percentDecode rest

/-- The plus-to-space replacement form_urlencoded applies before percent
decoding. -/
def plusToSpace (c : Char) : Char :=
  if c = '+' then ' ' else c

/-- Decode one name or value token of a form-urlencoded query string. -/
def formDecode (cs : List Char) : String :=
  ⟨percentDecode (cs.map plusToSpace)⟩

/-- Split a character list at every occurrence of a separator; the
resulting pieces do not contain the separator and keep their order
(slice::split on a byte, as form_urlencoded iterates it). -/
def splitChar (sep : Char) : List Char → List (List Char)
  | [] => [[]]
  | c :: rest =>
    match splitChar sep rest with
    | [] => [[c]]
    | piece :: pieces =>
      if c = sep then [] :: piece :: pieces
      else (c :: piece) :: pieces

/-- form_urlencoded::parse from commons/src/lib.rs (ensure_query_params) and
the query parsing of policy-engine/src/graph.rs: split the query on the
ampersand, skip empty pieces, split each piece at its first equals sign into
a name and a (possibly empty) value, and form-decode both. -/
def queryPairs (query : String) : List (String × String) :=
  ((splitChar '&' query.data).filter (fun piece => ¬ piece.isEmpty)).map
    (fun piece =>
      (formDecode (piece.takeWhile (· ≠ '=')),
       formDecode ((piece.dropWhile (· ≠ '=')).drop 1)))

/-- The de-duplicated key multiset of a query string, as extracted by
ensure_query_params: every occurrence of a repeated key is present here. -/
def queryKeys (query : String) : List String :=
  (queryPairs query).map Prod.fst

/-- Lexicographic less-or-equal on character lists, the order str uses
(byte order of UTF-8 agrees with code-point order). -/
def charListLe : List Char → List Char → Bool
  | [], _ => true
  | _ :: _, [] => false
  | a :: as, b :: bs => if a = b then charListLe as bs else decide (a < b)

/-- Lexicographic less-or-equal on strings, as Vec::sort on String
compares. -/
def strLe (a b : String) : Prop :=
  charListLe a.data b.data = true

instance : DecidableRel strLe := fun a b =>
  decidable_of_iff (charListLe a.data b.data = true) Iff.rfl

/-- Vec::sort, a stable sort, embedded as insertion sort in the string
order. -/
def sortStrings (l : List String) : List String :=
  l.insertionSort strLe

/-- commons::ensure_query_params (commons/src/lib.rs lines 77-100): make
sure the query string contains all required parameter keys; on failure the
missing required names are reported sorted.  The HashSet of required
parameters is embedded as the list of its (pairwise distinct) elements. -/
def ensure_query_params (required_params : List String) (query : String) :
    Except GraphError Unit :=
  if required_params.isEmpty then .ok ()
  else
    let query_keys := queryKeys query
    let missing : List String :=
      sortStrings (required_params.filter (fun k => k ∉ query_keys))
    if missing.isEmpty then .ok ()
    else .error (.MissingParams missing)

/-- actix HeaderMap.get: first value stored under a (lowercase) header
name.  A HeaderMap is embedded as an association list of lowercase header
names and values. -/
def getHeader (headers : List (String × String)) (name : String) :
    Option String :=
  (headers.find? (fun p => p.1 = name)).map (·.2)

/-- commons::ensure_content_type (commons/src/lib.rs lines 103-118): the
request passes when the Accept header equals the configured content type. -/
def ensure_content_type (headers : List (String × String))
    (content_type : String) : Except GraphError Unit :=
  if ! (((getHeader headers "accept").map
          (fun accept => accept == content_type)).getD false)
  then .error .InvalidContentType
  else .ok ()

/-- str::trim_matches from the Rust standard library, for a single pattern
character: strip every leading and every trailing occurrence. -/
def trimMatches (pat : Char) (s : String) : String :=
  ⟨(s.data.dropWhile (fun c => c == pat)).rdropWhile (fun c => c == pat)⟩

/-- commons::parse_path_prefix (commons/src/lib.rs lines 40-45): strip all
but one leading slash and all trailing slashes.  (Rust name:
parse_path_prefix.) -/
def parsePathPrefix (path : String) : String :=
  "/" ++ trimMatches '/' path

/-- Modelled from the spec: a release node of the graph data model (spec
section 3; the cincinnati crate module defining Release is not under src/).
The metadata map is an association list with pairwise distinct keys. -/
structure Release where
  version : String
  payload : String
  metadata : List (String × String)
  deriving Repr, DecidableEq

/-- Modelled from the spec: the update graph (spec section 3; the
cincinnati crate module defining Graph is not under src/).  A node is an
opaque stable release-id paired with its release; an edge is a directed
pair of release-ids. -/
structure Graph where
  nodes : List (Nat × Release)
  edges : List (Nat × Nat)
  deriving Repr, DecidableEq

/-- Lookup in a metadata association list (IndexMap::get / contains_key). -/
def mlookup (m : List (String × String)) (k : String) : Option String :=
  (m.find? (fun p => p.1 = k)).map (·.2)

/-- IndexMap::insert on a metadata association list: replace the value of
an existing binding in place, or append a fresh binding; returns the new
map together with the previous value, if any (spec section 4.A,
get-metadata: insertion returns the previous value). -/
def minsert (m : List (String × String)) (k v : String) :
    List (String × String) × Option String :=
  match m with
  | [] => ([(k, v)], none)
  | (k0, v0) :: rest =>
    if k0 = k then ((k0, v) :: rest, some v0)
    else
      let (m2, prev) := minsert rest k v
      ((k0, v0) :: m2, prev)

/-- Modelled from the spec: Graph::find_by_metadata_pair (spec section 4.A):
every release whose metadata maps the key to exactly the value, as
(release-id, version), in node order (release-id ascending). -/
def Graph.find_by_metadata_pair (g : Graph) (k v : String) :
    List (Nat × String) :=
  (g.nodes.filter (fun p => mlookup p.2.metadata k = some v)).map
    (fun p => (p.1, p.2.version))

/-- Modelled from the spec: Graph::find_by_metadata_key (spec section 4.A):
every release whose metadata contains the key, as (release-id, version,
value), in node order. -/
def Graph.find_by_metadata_key (g : Graph) (k : String) :
    List (Nat × String × String) :=
  g.nodes.filterMap
    (fun p => (mlookup p.2.metadata k).map (fun v => (p.1, p.2.version, v)))

/-- Modelled from the spec: Graph::remove_releases (spec section 4.A):
removes the nodes with the given ids and every edge incident to them;
unknown ids are ignored; returns the new graph and the count actually
removed. -/
def Graph.remove_releases (g : Graph) (ids : List Nat) : Graph × Nat :=
  let keep := g.nodes.filter (fun p => p.1 ∉ ids)
  let edges := g.edges.filter (fun e => e.1 ∉ ids ∧ e.2 ∉ ids)
  (⟨keep, edges⟩, g.nodes.length - keep.length)

/-- Modelled from the spec: Graph::releases_count (spec section 4.A). -/
def Graph.releases_count (g : Graph) : Nat :=
  g.nodes.length

/-- Escape a string for JSON output (quotes and backslashes). -/
def jsonEscape (s : String) : String :=
  ⟨s.data.foldr
    (fun c acc =>
      if c = '\"' then '\\' :: '\"' :: acc
      else if c = '\\' then '\\' :: '\\' :: acc
      else c :: acc) []⟩

/-- Render a JSON string literal. -/
def jsonStr (s : String) : String :=
  "\"" ++ jsonEscape s ++ "\""

/-- Join rendered JSON values with commas. -/
def jsonJoin (parts : List String) : String :=
  String.intercalate "," parts

/-- Modelled from the spec: serde serialization of a graph (spec sections
4.A and 6): nodes in insertion order with version, payload and metadata,
edges as pairs of indices into the emitted node array. -/
def Graph.serialize (g : Graph) : String :=
  let nodeJson := fun (p : Nat × Release) =>
    "\x7b" ++ jsonStr "version" ++ ":" ++ jsonStr p.2.version ++ ","
      ++ jsonStr "payload" ++ ":" ++ jsonStr p.2.payload ++ ","
      ++ jsonStr "metadata" ++ ":"
      ++ "\x7b"
      ++ jsonJoin (p.2.metadata.map
            (fun kv => jsonStr kv.1 ++ ":" ++ jsonStr kv.2))
      ++ "\x7d"
      ++ "\x7d"
  let ids := g.nodes.map Prod.fst
  let edgeJson := fun (e : Nat × Nat) =>
    "[" ++ toString (ids.indexOf e.1) ++ "," ++ toString (ids.indexOf e.2)
      ++ "]"
  "\x7b" ++ jsonStr "nodes" ++ ":["
    ++ jsonJoin (g.nodes.map nodeJson)
    ++ "]," ++ jsonStr "edges" ++ ":["
    ++ jsonJoin (g.edges.map edgeJson)
    ++ "]\x7d"

/-- The plugin I/O envelope (cincinnati::plugins::InternalIO, declared in
the cincinnati crate, used throughout src/): a graph together with the
client parameters. -/
structure InternalIo where
  graph : Graph
  parameters : List (String × String)
  deriving Repr, DecidableEq

/-- The empty graph used to seed both pipelines (Default::default()). -/
def emptyGraph : Graph :=
  ⟨[], []⟩

/-- NodeRemovePlugin::run_internal
(cincinnati/src/plugins/internal/node_remove.rs lines 56-85): queue every
release whose metadata maps the key key_prefix.release.remove to "true",
remove
all of them from the graph, and return the graph with the parameters passed
through.  The plugin never fails; errors of other plugins share the Fallible
return type, embedded as Except String. -/
def nodeRemoveRun (keyPrefix : String) (io : InternalIo) :
    Except String InternalIo :=
  let graph := io.graph
  let key_suffix := "release.remove"
  let to_remove : List Nat :=
    (graph.find_by_metadata_pair (keyPrefix ++ "." ++ key_suffix) "true").map
      Prod.fst
  let (graph2, _removed) := graph.remove_releases to_remove
  .ok { graph := graph2, parameters := io.parameters }

/-- One warning event emitted with warn! by
QuayMetadataFetchPlugin::run_internal when a fetched label key collides
with an existing metadata key: the message interpolates the release
version, the colliding key, the value written and the previous value. -/
structure QuayWarning where
  version : String
  key : String
  value : String
  previous : String
  deriving Repr, DecidableEq

/-- Body of the label-merge loop of QuayMetadataFetchPlugin::run_internal
(metadata_fetch_quay.rs lines 146-170): insert one fetched label into a
release metadata map; when the insertion returns a previous value a warning
referencing it is emitted. -/
def insertLabel (version : String) (m : List (String × String))
    (k v : String) : List (String × String) × Option QuayWarning :=
  match minsert m k v with
  | (m2, some previous_value) => (m2, some ⟨version, k, v, previous_value⟩)
  | (m2, none) => (m2, none)

/-- Merge all fetched labels of one release into its metadata, collecting
the emitted warnings in order (metadata_fetch_quay.rs lines 146-170). -/
def mergeLabels (version : String) (m : List (String × String))
    (labels : List (String × String)) :
    List (String × String) × List QuayWarning :=
  match labels with
  | [] => (m, [])
  | (k, v) :: rest =>
    let (m2, w) := insertLabel version m k v
    let (m3, ws) := mergeLabels version m2 rest
    (m3, w.toList ++ ws)

/-- Replace the metadata of the node with the given release-id
(Graph::get_metadata_as_ref_mut followed by the in-place mutation; the id
always stems from find_by_metadata_key on the same graph, so it is
present). -/
def Graph.setMetadata (g : Graph) (id : Nat)
    (m : List (String × String)) : Graph :=
  ⟨g.nodes.map (fun p => if p.1 = id then (p.1, { p.2 with metadata := m })
                         else p),
   g.edges⟩

/-- First phase of QuayMetadataFetchPlugin::run_internal
(metadata_fetch_quay.rs lines 120-140): fetch the labels of every release
carrying a manifestref, in order, returning at the first failing fetch with
that error. -/
def gatherLabels (fetch : String → Except String (List (String × String))) :
    List (Nat × String × String) →
    Except String (List (List (String × String) × Nat × String))
  | [] => .ok []
  | (release_id, release_version, manifestref) :: rest =>
    match fetch manifestref with
    | .error e => .error e
    | .ok quay_labels =>
      match gatherLabels fetch rest with
      | .error e => .error e
      | .ok acc => .ok ((quay_labels, release_id, release_version) :: acc)

/-- Second phase of QuayMetadataFetchPlugin::run_internal
(metadata_fetch_quay.rs lines 142-171): merge the fetched labels into the
corresponding releases, collecting all collision warnings. -/
def mergeFetched (g : Graph) :
    List (List (String × String) × Nat × String) →
    Graph × List QuayWarning
  | [] => (g, [])
  | (labels, release_id, release_version) :: rest =>
    let m := ((g.nodes.find? (fun p => p.1 = release_id)).map
      (·.2.metadata)).getD []
    let (m2, ws) := mergeLabels release_version m labels
    let (g2, ws2) := mergeFetched (g.setMetadata release_id m2) rest
    (g2, ws ++ ws2)

/-- QuayMetadataFetchPlugin::run_internal (metadata_fetch_quay.rs lines
104-174).  The remote registry client is embedded as a function from the
manifestref to the fetched labels or a transport error; repository and
label filter are already applied inside it.  All label fetches complete
before any label is merged into the graph; the first fetch failure aborts
the run with that error. -/
def quayRun (fetch : String → Except String (List (String × String)))
    (manifestrefKey : String) (io : InternalIo) :
    Except String (InternalIo × List QuayWarning) :=
  match gatherLabels fetch (io.graph.find_by_metadata_key manifestrefKey) with
  | .error e => .error e
  | .ok labels_with_releaseinfo =>
    match mergeFetched io.graph labels_with_releaseinfo with
    | (graph2, warnings) =>
      .ok ({ graph := graph2, parameters := io.parameters }, warnings)

/-- The error type of the boxed plugin pipeline (failure::Error): either a
commons GraphError or any other error, known only by its description.
policy-engine/src/graph.rs downcasts it. -/
inductive PluginExcError where
  | graphError (g : GraphError)
  | other (descr : String)
  deriving Repr, DecidableEq

/-- A plugin of the request-time pipeline, embedded as its run function on
the I/O envelope. -/
def PluginFun : Type :=
  InternalIo → Except PluginExcError InternalIo

/-- Modelled from the spec: cincinnati::plugins::process, the pipeline
driver (spec section 4.C; the cincinnati crate module defining it is not
under src/): run the plugins in the given order, threading the envelope,
short-circuiting on the first error, never retrying. -/
def process (plugins : List PluginFun) (io : InternalIo) :
    Except PluginExcError InternalIo :=
  match plugins with
  | [] => .ok io
  | p :: rest =>
    match p io with
    | .error e => .error e
    | .ok io2 => process rest io2

/-- An HTTP response as far as the handlers determine it: status code,
content type and body. -/
structure HttpOkResponse where
  status : Nat
  contentType : String
  body : String
  deriving Repr, DecidableEq

/-- The error conversion applied by policy-engine process_plugins
(policy-engine/src/graph.rs lines 100-103): a pipeline error that downcasts
to GraphError is returned unchanged, any other error becomes
FailedPluginExecution of its description. -/
def downcastConvert : PluginExcError → GraphError
  | .graphError g => g
  | .other descr => .FailedPluginExecution descr

/-- Parse the query string into the (key, value) map handed to the plugins
(policy-engine/src/graph.rs lines 56-58, Query::from_query into a HashMap):
the last value of a repeated key wins. -/
def parseParamsMap (query : String) : List (String × String) :=
  (queryPairs query).foldl (fun acc kv => (minsert acc kv.1 kv.2).1) []

/-- policy-engine process_plugins (policy-engine/src/graph.rs lines
80-111): run the pipeline on an empty seed graph with the client
parameters, convert a pipeline error by downcast, serialize the resulting
graph and answer HTTP 200 with the configured content type.  (Graph
serialization of the embedded model is total, so the FailedJsonOut branch
of the source cannot be taken here.) -/
def process_plugins (plugins : List PluginFun)
    (plugin_params : List (String × String)) :
    Except GraphError HttpOkResponse :=
  match process plugins { graph := emptyGraph, parameters := plugin_params }
  with
  | .error e => .error (downcastConvert e)
  | .ok internal_io =>
    .ok ⟨200, CONTENT_TYPE, internal_io.graph.serialize⟩

/-- The policy-engine graph endpoint handler index
(policy-engine/src/graph.rs lines 40-78): content-type gate, then
mandatory-parameter gate, then query parsing, then the plugin pipeline. -/
def peIndex (headers : List (String × String)) (mandatory_params : List String)
    (query : String) (plugins : List PluginFun) :
    Except GraphError HttpOkResponse :=
  match ensure_content_type headers CONTENT_TYPE with
  | .error e => .error e
  | .ok _ =>
    match ensure_query_params mandatory_params query with
    | .error e => .error e
    | .ok _ => process_plugins plugins (parseParamsMap query)

/-- The graph-builder graph endpoint handler index
(graph-builder/src/graph.rs lines 100-133): content-type gate, then
mandatory-parameter gate, then HTTP 200 with the cached JSON string as
body. -/
def gbIndex (headers : List (String × String)) (mandatory_params : List String)
    (query : String) (cachedJson : String) :
    Except GraphError HttpOkResponse :=
  match ensure_content_type headers CONTENT_TYPE with
  | .error e => .error e
  | .ok _ =>
    match ensure_query_params mandatory_params query with
    | .error e => .error e
    | .ok _ => .ok ⟨200, CONTENT_TYPE, cachedJson⟩

/-- The mutable state the scrape loop of graph-builder/src/graph.rs shares
with the HTTP handlers, together with the loop-local flags and the metric
counters it touches. -/
structure ScrapeState where
  json : String
  live : Bool
  ready : Bool
  firstIteration : Bool
  firstSuccess : Bool
  upstreamErrors : Nat
  upstreamScrapes : Nat
  deriving Repr, DecidableEq

/-- Outcome of one scrape iteration of the builder loop: the pipeline
failed, the pipeline succeeded but the graph failed to serialize, or the
pipeline succeeded and its graph serialized to the given JSON string with
the given release count. -/
inductive ScrapeOutcome where
  | pipelineErr
  | serializeErr
  | ok (json : String) (releases : Nat)
  deriving Repr, DecidableEq

/-- One iteration of the scrape loop run (graph-builder/src/graph.rs lines
202-285): the first iteration flips live (instead of sleeping); every
iteration counts one scrape; a failed pipeline or serialization counts one
upstream error and leaves everything else unchanged (continue); a success
replaces the cached JSON and, on the first success only, sets ready. -/
def scrapeStep (s : ScrapeState) (o : ScrapeOutcome) : ScrapeState :=
  let s := if s.firstIteration
    then { s with live := true, firstIteration := false }
    else s
  let s := { s with upstreamScrapes := s.upstreamScrapes + 1 }
  match o with
  | .pipelineErr => { s with upstreamErrors := s.upstreamErrors + 1 }
  | .serializeErr => { s with upstreamErrors := s.upstreamErrors + 1 }
  | .ok json_graph _releases =>
    let s := { s with json := json_graph }
    if s.firstSuccess
    then { s with ready := true, firstSuccess := false }
    else s

/-- The scrape loop across a finite trace of iteration outcomes. -/
def runScrape (s : ScrapeState) : List ScrapeOutcome → ScrapeState
  | [] => s
  | o :: rest => runScrape (scrapeStep s o) rest

/-- The state the builder starts the loop in: the cached JSON holds the
initial string installed by main, both flags are down, no iteration has
run. -/
def initScrapeState (json0 : String) : ScrapeState :=
  ⟨json0, false, false, true, true, 0, 0⟩

/-- The JSON of the most recent successful outcome of a trace, if any. -/
def lastOkJson : List ScrapeOutcome → Option String
  | [] => none
  | .ok j _ :: rest => some ((lastOkJson rest).getD j)
  | _ :: rest => lastOkJson rest

/-- Whether an iteration outcome is a success. -/
def ScrapeOutcome.isOk : ScrapeOutcome → Bool
  | .ok _ _ => true
  | _ => false

/-- Whether a trace contains a successful iteration. -/
def hasSuccess (t : List ScrapeOutcome) : Prop :=
  ∃ j n, ScrapeOutcome.ok j n ∈ t

theorem hasSuccess_iff_any (t : List ScrapeOutcome) :
    hasSuccess t ↔ ∃ o ∈ t, o.isOk = true := by
  constructor
  · rintro ⟨j, n, h⟩
    exact ⟨_, h, rfl⟩
  · rintro ⟨o, ho, hok⟩
    cases o with
    | ok j n => exact ⟨j, n, ho⟩
    | pipelineErr => simp [ScrapeOutcome.isOk] at hok
    | serializeErr => simp [ScrapeOutcome.isOk] at hok

instance (t : List ScrapeOutcome) : Decidable (hasSuccess t) :=
  decidable_of_iff _ (hasSuccess_iff_any t).symm

/-! ## The string order used for the missing-parameter report -/

theorem charListLe_iff_le : ∀ x y : List Char, charListLe x y = true ↔ x ≤ y
  | [], y => by
    simp only [charListLe]
    exact ⟨fun _ => List.nil_le, fun _ => trivial⟩
  | x :: xs, [] => by
    simp only [charListLe]
    constructor
    · intro h
      exact absurd h (by simp)
    · intro h
      exact absurd (List.nil_lt_cons x xs) (not_lt.mpr h)
  | a :: as, b :: bs => by
    by_cases hab : a = b
    · subst hab
      simp only [charListLe, eq_self_iff_true, if_true]
      rw [charListLe_iff_le as bs, ← not_lt, ← not_lt]
      constructor
      · intro h hcon
        exact h (List.Lex.cons_iff.mp hcon)
      · intro h hcon
        exact h (List.Lex.cons_iff.mpr hcon)
    · simp only [charListLe, if_neg hab, decide_eq_true_eq]
      rw [← not_lt]
      constructor
      · intro hlt hcon
        cases hcon with
        | rel h1 => exact absurd (lt_trans h1 hlt) (lt_irrefl b)
        | cons _ => exact hab rfl
      · intro h
        rcases lt_trichotomy a b with h1 | h1 | h1
        · exact h1
        · exact absurd h1 hab
        · exact absurd (List.Lex.rel h1) h

theorem strLe_iff_le (a b : String) : strLe a b ↔ a ≤ b := by
  unfold strLe
  rw [charListLe_iff_le]
  exact Iff.symm String.le_iff_toList_le

instance : IsTotal String strLe :=
  ⟨fun a b => by
    rw [strLe_iff_le, strLe_iff_le]
    exact le_total a b⟩

instance : IsTrans String strLe :=
  ⟨fun a b c h1 h2 => by
    rw [strLe_iff_le] at h1 h2 ⊢
    exact le_trans h1 h2⟩

theorem sortStrings_sorted (l : List String) :
    (sortStrings l).Sorted (· ≤ ·) :=
  (List.sorted_insertionSort strLe l).imp (fun h => (strLe_iff_le _ _).mp h)

theorem sortStrings_perm (l : List String) : List.Perm (sortStrings l) l :=
  List.perm_insertionSort strLe l

theorem mem_sortStrings {x : String} {l : List String} :
    x ∈ sortStrings l ↔ x ∈ l :=
  (sortStrings_perm l).mem_iff

/-! ## C1: mandatory query parameters -/

/-- C1: ensure_query_params returns Ok exactly when every required name
occurs among the (possibly repeated) keys of the query string, and on
failure it returns MissingParams carrying exactly the required names
absent from the query, sorted lexicographically ascending. -/
theorem C1_ensure_query_params_ok_iff_and_missing_sorted
    (req : List String) (q : String) :
    (ensure_query_params req q = .ok () ↔ ∀ k ∈ req, k ∈ queryKeys q)
    ∧ (∀ e, ensure_query_params req q = .error e →
        ∃ missing, e = .MissingParams missing
          ∧ missing.Sorted (· ≤ ·)
          ∧ (∀ k, k ∈ missing ↔ k ∈ req ∧ k ∉ queryKeys q)) := by
  unfold ensure_query_params
  by_cases hempty : req.isEmpty
  · rw [if_pos hempty]
    rw [List.isEmpty_iff] at hempty
    subst hempty
    refine ⟨⟨fun _ => by simp, fun _ => rfl⟩, fun e he => ?_⟩
    exact absurd he (by simp)
  · rw [if_neg hempty]
    simp only []
    by_cases hmiss :
        (sortStrings (req.filter (fun k => k ∉ queryKeys q))).isEmpty
    · rw [if_pos hmiss]
      rw [List.isEmpty_iff] at hmiss
      have hfilter : req.filter (fun k => k ∉ queryKeys q) = [] := by
        have hlen := (sortStrings_perm
          (req.filter (fun k => k ∉ queryKeys q))).length_eq
        rw [hmiss] at hlen
        exact List.eq_nil_of_length_eq_zero hlen.symm
      refine ⟨⟨fun _ k hk => ?_, fun _ => rfl⟩, fun e he => absurd he (by simp)⟩
      by_contra hk2
      have : k ∈ req.filter (fun k => k ∉ queryKeys q) := by
        rw [List.mem_filter]
        exact ⟨hk, by simpa using hk2⟩
      rw [hfilter] at this
      exact absurd this (List.not_mem_nil k)
    · rw [if_neg hmiss]
      constructor
      · constructor
        · intro h
          exact absurd h (by simp)
        · intro hall
          exfalso
          apply hmiss
          rw [List.isEmpty_iff]
          have hfilter : req.filter (fun k => k ∉ queryKeys q) = [] := by
            rw [List.filter_eq_nil_iff]
            intro k hk
            simpa using hall k hk
          rw [hfilter]
          rfl
      · intro e he
        refine ⟨sortStrings (req.filter (fun k => k ∉ queryKeys q)),
          ?_, sortStrings_sorted _, fun k => ?_⟩
        · injection he with h
          exact h.symm
        · rw [mem_sortStrings, List.mem_filter]
          simp

/-- C1 witness: with required set containing b and a and query c=d, the
check fails with the missing names sorted ascending. -/
theorem C1_witness :
    ∃ missing, GraphError.MissingParams ["a", "b"] = .MissingParams missing
      ∧ missing.Sorted (· ≤ ·)
      ∧ (∀ k, k ∈ missing ↔ k ∈ ["b", "a"] ∧ k ∉ queryKeys "c=d") :=
  (C1_ensure_query_params_ok_iff_and_missing_sorted ["b", "a"] "c=d").2
    (.MissingParams ["a", "b"]) (by decide)

/-! ## C10: path-prefix parsing -/

theorem head?_dropWhile_false (p : Char → Bool) :
    ∀ (l : List Char) (c : Char), (l.dropWhile p).head? = some c → p c = false
  | [], c => by simp
  | x :: xs, c => by
    rw [List.dropWhile_cons]
    by_cases hx : p x = true
    · rw [if_pos hx]
      exact head?_dropWhile_false p xs c
    · rw [if_neg hx]
      intro h
      injection h with h
      subst h
      simpa using hx

theorem dropWhile_eq_self_of_head (p : Char → Bool) (l : List Char)
    (h : ∀ c, l.head? = some c → p c = false) : l.dropWhile p = l := by
  cases l with
  | nil => rfl
  | cons x xs =>
    rw [List.dropWhile_cons, if_neg]
    simp [h x rfl]

theorem getLast?_rdropWhile_false (p : Char → Bool) (l : List Char) (c : Char)
    (h : (l.rdropWhile p).getLast? = some c) : p c = false := by
  have hne : l.rdropWhile p ≠ [] := by
    intro hnil
    rw [hnil] at h
    exact absurd h (by simp)
  have hlast := List.rdropWhile_last_not p l hne
  rw [List.getLast?_eq_getLast _ hne] at h
  injection h with h
  subst h
  simpa using hlast

theorem rdropWhile_eq_self_of_getLast (p : Char → Bool) (l : List Char)
    (h : ∀ c, l.getLast? = some c → p c = false) : l.rdropWhile p = l := by
  rw [List.rdropWhile_eq_self_iff]
  intro hl hp
  have := h (l.getLast hl) (List.getLast?_eq_getLast l hl)
  rw [hp] at this
  exact absurd this (by simp)

theorem head?_trimData (s : String) (c : Char)
    (h : (trimMatches '/' s).data.head? = some c) : c ≠ '/' := by
  have hpre := List.rdropWhile_prefix (fun ch => ch == '/')
    (s.data.dropWhile (fun ch => ch == '/'))
  obtain ⟨u, hu⟩ := hpre
  have hdata : (trimMatches '/' s).data =
      (s.data.dropWhile (fun ch => ch == '/')).rdropWhile (fun ch => ch == '/') :=
    rfl
  rw [hdata] at h
  have hhead : (s.data.dropWhile (fun ch => ch == '/')).head? = some c := by
    rw [← hu]
    cases hcase :
        (s.data.dropWhile (fun ch => ch == '/')).rdropWhile (fun ch => ch == '/')
      with
    | nil => rw [hcase] at h; exact absurd h (by simp)
    | cons y ys =>
      rw [hcase] at h
      injection h with h
      subst h
      rfl
  have := head?_dropWhile_false (fun ch => ch == '/') s.data c hhead
  simpa using this

theorem getLast?_trimData (s : String) (c : Char)
    (h : (trimMatches '/' s).data.getLast? = some c) : c ≠ '/' := by
  have hdata : (trimMatches '/' s).data =
      (s.data.dropWhile (fun ch => ch == '/')).rdropWhile (fun ch => ch == '/') :=
    rfl
  rw [hdata] at h
  have := getLast?_rdropWhile_false (fun ch => ch == '/')
    (s.data.dropWhile (fun ch => ch == '/')) c h
  simpa using this

theorem trimMatches_slash_idem (s : String) :
    trimMatches '/' ("/" ++ trimMatches '/' s) = trimMatches '/' s := by
  have hdata : ("/" ++ trimMatches '/' s).data =
      '/' :: (trimMatches '/' s).data := rfl
  have h1 : ("/" ++ trimMatches '/' s).data.dropWhile (fun ch => ch == '/')
      = (trimMatches '/' s).data := by
    rw [hdata, List.dropWhile_cons, if_pos (by simp)]
    exact dropWhile_eq_self_of_head _ _
      (fun c hc => by
        have := head?_trimData s c hc
        simpa using this)
  show String.mk _ = _
  rw [h1]
  have h2 : (trimMatches '/' s).data.rdropWhile (fun ch => ch == '/')
      = (trimMatches '/' s).data :=
    rdropWhile_eq_self_of_getLast _ _
      (fun c hc => by
        have := getLast?_trimData s c hc
        simpa using this)
  rw [h2]

/-- C10: parse_path_prefix prepends a single slash to its argument with
all leading and trailing slashes stripped; hence the result starts with
exactly one slash, never ends in a slash except when it is exactly the
root, and the function is idempotent. -/
theorem C10_parsePathPrefix_shape_and_idem (s : String) :
    parsePathPrefix s = "/" ++ trimMatches '/' s
    ∧ (∃ t : List Char, (parsePathPrefix s).data = '/' :: t
        ∧ (∀ c, t.head? = some c → c ≠ '/')
        ∧ (∀ c, t.getLast? = some c → c ≠ '/'))
    ∧ parsePathPrefix (parsePathPrefix s) = parsePathPrefix s := by
  refine ⟨rfl, ⟨(trimMatches '/' s).data, rfl, ?_, ?_⟩, ?_⟩
  · exact head?_trimData s
  · exact getLast?_trimData s
  · show "/" ++ trimMatches '/' ("/" ++ trimMatches '/' s) = _
    rw [trimMatches_slash_idem]
    rfl

/-- C10 witness: the shape facts evaluated on the path //a/b/c//. -/
theorem C10_witness :
    parsePathPrefix (parsePathPrefix "//a/b/c//") = parsePathPrefix "//a/b/c//"
    ∧ ('a' : Char) ≠ '/' := by
  obtain ⟨h1, ⟨t, ht, hh, hl⟩, h3⟩ :=
    C10_parsePathPrefix_shape_and_idem "//a/b/c//"
  refine ⟨h3, ?_⟩
  have heq : (parsePathPrefix "//a/b/c//").data = '/' :: "a/b/c".data := by
    decide
  rw [heq] at ht
  injection ht with ht1 ht2
  exact hh 'a' (by rw [← ht2]; decide)

/-! ## C7: content-type gate of the policy-engine -/

theorem ensure_content_type_ok_iff (headers : List (String × String))
    (ct : String) :
    ensure_content_type headers ct = .ok () ↔
      getHeader headers "accept" = some ct := by
  cases hacc : getHeader headers "accept" with
  | none => simp [ensure_content_type, hacc]
  | some v =>
    by_cases hv : v = ct
    · subst hv
      simp [ensure_content_type, hacc]
    · simp [ensure_content_type, hacc, hv]

theorem ensure_content_type_error_of_ne (headers : List (String × String))
    (ct : String) (hne : getHeader headers "accept" ≠ some ct) :
    ensure_content_type headers ct = .error .InvalidContentType := by
  cases hacc : getHeader headers "accept" with
  | none => simp [ensure_content_type, hacc]
  | some v =>
    have hv : v ≠ ct := fun h => hne (by rw [hacc, h])
    simp [ensure_content_type, hacc, hv]

/-- C7: ensure_content_type accepts a request exactly when the Accept
header is present and equal to the configured content type; a GET on the
policy-engine graph endpoint whose Accept header is absent or different
from the configured media type is answered with InvalidContentType
(HTTP 406 in the taxonomy) and the plugin pipeline is never invoked: the
response is this error whatever the pipeline is. -/
theorem C7_content_type_gate (headers : List (String × String))
    (mandatory_params : List String) (query : String) (ct : String) :
    (ensure_content_type headers ct = .ok () ↔
      getHeader headers "accept" = some ct)
    ∧ (getHeader headers "accept" ≠ some CONTENT_TYPE →
        ∀ plugins, peIndex headers mandatory_params query plugins
          = .error .InvalidContentType) := by
  refine ⟨ensure_content_type_ok_iff headers ct, fun hne plugins => ?_⟩
  unfold peIndex
  rw [ensure_content_type_error_of_ne headers CONTENT_TYPE hne]

/-- C7 witness: a request without an Accept header is rejected with the
empty pipeline never invoked. -/
theorem C7_witness :
    peIndex [] [] "" [] = .error .InvalidContentType :=
  (C7_content_type_gate [] [] "" CONTENT_TYPE).2 (by decide) []

/-! ## C9: the graph-builder index handler -/

/-- C9 counterexample: a GET with no Accept header does not receive the
cached JSON; the builder handler rejects it with InvalidContentType, so
the response body is not the cache for every GET. -/
theorem C9_counterexample :
    gbIndex [] [] "" "cachedgraph" = .error .InvalidContentType := by
  decide

/-- C9 (amended): for every GET that passes the content-type and
mandatory-parameter gates, the builder handler returns the currently
cached JSON string verbatim with HTTP 200 and the configured content
type. -/
theorem C9_gbIndex_serves_cache (headers : List (String × String))
    (mandatory_params : List String) (query : String) (cachedJson : String)
    (haccept : getHeader headers "accept" = some CONTENT_TYPE)
    (hparams : ensure_query_params mandatory_params query = .ok ()) :
    gbIndex headers mandatory_params query cachedJson
      = .ok ⟨200, CONTENT_TYPE, cachedJson⟩ := by
  unfold gbIndex
  rw [(ensure_content_type_ok_iff headers CONTENT_TYPE).mpr haccept, hparams]

/-- C9 witness: a well-formed GET receives the cached string. -/
theorem C9_witness :
    gbIndex [("accept", "application/json")] [] "" "thegraph"
      = .ok ⟨200, CONTENT_TYPE, "thegraph"⟩ :=
  C9_gbIndex_serves_cache [("accept", "application/json")] [] "" "thegraph"
    (by decide) (by decide)

/-! ## C8: policy-engine pipeline error conversion -/

theorem process_append (ps1 ps2 : List PluginFun) (io : InternalIo) :
    process (ps1 ++ ps2) io =
      match process ps1 io with
      | .error e => .error e
      | .ok io2 => process ps2 io2 := by
  induction ps1 generalizing io with
  | nil => rfl
  | cons p rest ih =>
    rw [List.cons_append]
    have hl : process (p :: (rest ++ ps2)) io =
        match p io with
        | .error e => .error e
        | .ok io2 => process (rest ++ ps2) io2 := rfl
    have hr : process (p :: rest) io =
        match p io with
        | .error e => .error e
        | .ok io2 => process rest io2 := rfl
    rw [hl, hr]
    cases hp : p io with
    | error e => rfl
    | ok io2 =>
      show process (rest ++ ps2) io2 = _
      rw [ih io2]

theorem process_first_error (ps1 ps2 : List PluginFun) (p : PluginFun)
    (io io1 : InternalIo) (e : PluginExcError)
    (hok : process ps1 io = .ok io1) (herr : p io1 = .error e) :
    process (ps1 ++ p :: ps2) io = .error e := by
  rw [process_append, hok]
  show process (p :: ps2) io1 = .error e
  show (match p io1 with
        | .error e2 => (.error e2 : Except PluginExcError InternalIo)
        | .ok io2 => process ps2 io2) = .error e
  rw [herr]

theorem process_plugins_of_error (plugins : List PluginFun)
    (params : List (String × String)) (e : PluginExcError)
    (h : process plugins { graph := emptyGraph, parameters := params }
      = .error e) :
    process_plugins plugins params = .error (downcastConvert e) := by
  unfold process_plugins
  rw [h]

/-- C8: the request-time pipeline aborts at the first plugin error without
running the remaining plugins and without retrying, and the handler
converts that error: a GraphError is returned unchanged, any other error
(such as the graph-model errors) is returned as FailedPluginExecution of
its description. -/
theorem C8_first_error_aborts_and_converts
    (ps1 ps2 : List PluginFun) (p : PluginFun)
    (params : List (String × String)) (io1 : InternalIo) (e : PluginExcError)
    (hok : process ps1 { graph := emptyGraph, parameters := params } = .ok io1)
    (herr : p io1 = .error e) :
    process_plugins (ps1 ++ p :: ps2) params = .error (downcastConvert e)
    ∧ (∀ g, e = .graphError g → downcastConvert e = g)
    ∧ (∀ d, e = .other d → downcastConvert e
        = .FailedPluginExecution d) := by
  refine ⟨?_, ?_, ?_⟩
  · exact process_plugins_of_error _ params e
      (process_first_error ps1 ps2 p _ io1 e hok herr)
  · rintro g rfl
    rfl
  · rintro d rfl
    rfl

/-- C8 witness: a single failing plugin whose error is not a GraphError is
surfaced as FailedPluginExecution of its description. -/
theorem C8_witness :
    process_plugins [fun _ => Except.error (PluginExcError.other "boom")] []
      = .error (.FailedPluginExecution "boom") :=
  (C8_first_error_aborts_and_converts [] []
    (fun _ => Except.error (PluginExcError.other "boom")) []
    ⟨emptyGraph, []⟩ (.other "boom") rfl rfl).1

/-! ## C2 and C3: the builder scrape loop -/

theorem scrapeStep_json (s : ScrapeState) (o : ScrapeOutcome) :
    (scrapeStep s o).json =
      match o with
      | .ok j _ => j
      | _ => s.json := by
  cases o with
  | pipelineErr => by_cases h : s.firstIteration <;> simp [scrapeStep, h]
  | serializeErr => by_cases h : s.firstIteration <;> simp [scrapeStep, h]
  | ok j n =>
    by_cases h : s.firstIteration <;> by_cases h2 : s.firstSuccess <;>
      simp [scrapeStep, h, h2]

theorem scrapeStep_ready (s : ScrapeState) (o : ScrapeOutcome) :
    (scrapeStep s o).ready =
      match o with
      | .ok _ _ => (if s.firstSuccess then true else s.ready)
      | _ => s.ready := by
  cases o with
  | pipelineErr => by_cases h : s.firstIteration <;> simp [scrapeStep, h]
  | serializeErr => by_cases h : s.firstIteration <;> simp [scrapeStep, h]
  | ok j n =>
    by_cases h : s.firstIteration <;> by_cases h2 : s.firstSuccess <;>
      simp [scrapeStep, h, h2]

theorem scrapeStep_firstSuccess (s : ScrapeState) (o : ScrapeOutcome) :
    (scrapeStep s o).firstSuccess =
      match o with
      | .ok _ _ => false
      | _ => s.firstSuccess := by
  cases o with
  | pipelineErr => by_cases h : s.firstIteration <;> simp [scrapeStep, h]
  | serializeErr => by_cases h : s.firstIteration <;> simp [scrapeStep, h]
  | ok j n =>
    by_cases h : s.firstIteration <;> by_cases h2 : s.firstSuccess <;>
      simp [scrapeStep, h, h2]

theorem scrapeStep_upstreamErrors (s : ScrapeState) (o : ScrapeOutcome) :
    (scrapeStep s o).upstreamErrors =
      match o with
      | .ok _ _ => s.upstreamErrors
      | _ => s.upstreamErrors + 1 := by
  cases o with
  | pipelineErr => by_cases h : s.firstIteration <;> simp [scrapeStep, h]
  | serializeErr => by_cases h : s.firstIteration <;> simp [scrapeStep, h]
  | ok j n =>
    by_cases h : s.firstIteration <;> by_cases h2 : s.firstSuccess <;>
      simp [scrapeStep, h, h2]

theorem hasSuccess_cons (o : ScrapeOutcome) (t : List ScrapeOutcome) :
    hasSuccess (o :: t) ↔ o.isOk = true ∨ hasSuccess t := by
  rw [hasSuccess_iff_any, hasSuccess_iff_any]
  simp only [List.mem_cons]
  constructor
  · rintro ⟨x, hx | hx, hok⟩
    · subst hx
      exact Or.inl hok
    · exact Or.inr ⟨x, hx, hok⟩
  · rintro (hok | ⟨x, hx, hok⟩)
    · exact ⟨o, Or.inl rfl, hok⟩
    · exact ⟨x, Or.inr hx, hok⟩

theorem runScrape_json (t : List ScrapeOutcome) :
    ∀ s : ScrapeState, (runScrape s t).json = (lastOkJson t).getD s.json := by
  induction t with
  | nil => intro s; rfl
  | cons o rest ih =>
    intro s
    show (runScrape (scrapeStep s o) rest).json = _
    rw [ih (scrapeStep s o), scrapeStep_json]
    cases o with
    | pipelineErr => rfl
    | serializeErr => rfl
    | ok j n =>
      show (lastOkJson rest).getD j = (some ((lastOkJson rest).getD j)).getD s.json
      rfl

theorem lastOkJson_none_of_no_success (t : List ScrapeOutcome)
    (h : ¬ hasSuccess t) : lastOkJson t = none := by
  induction t with
  | nil => rfl
  | cons o rest ih =>
    rw [hasSuccess_cons] at h
    push_neg at h
    cases o with
    | pipelineErr => exact ih h.2
    | serializeErr => exact ih h.2
    | ok j n => exact absurd rfl h.1

theorem lastOkJson_of_success (t : List ScrapeOutcome) (h : hasSuccess t) :
    ∃ j n, ScrapeOutcome.ok j n ∈ t ∧ lastOkJson t = some j := by
  induction t with
  | nil => exact absurd h (by simp [hasSuccess])
  | cons o rest ih =>
    cases o with
    | pipelineErr =>
      have h2 : hasSuccess rest := by
        rw [hasSuccess_cons] at h
        rcases h with h | h
        · exact absurd h (by simp [ScrapeOutcome.isOk])
        · exact h
      obtain ⟨j, n, hmem, hlast⟩ := ih h2
      exact ⟨j, n, List.mem_cons_of_mem _ hmem, by simpa [lastOkJson] using hlast⟩
    | serializeErr =>
      have h2 : hasSuccess rest := by
        rw [hasSuccess_cons] at h
        rcases h with h | h
        · exact absurd h (by simp [ScrapeOutcome.isOk])
        · exact h
      obtain ⟨j, n, hmem, hlast⟩ := ih h2
      exact ⟨j, n, List.mem_cons_of_mem _ hmem, by simpa [lastOkJson] using hlast⟩
    | ok j0 n0 =>
      by_cases h2 : hasSuccess rest
      · obtain ⟨j, n, hmem, hlast⟩ := ih h2
        refine ⟨j, n, List.mem_cons_of_mem _ hmem, ?_⟩
        show some ((lastOkJson rest).getD j0) = some j
        rw [hlast]
        rfl
      · refine ⟨j0, n0, List.mem_cons_self _ _, ?_⟩
        show some ((lastOkJson rest).getD j0) = some j0
        rw [lastOkJson_none_of_no_success rest h2]
        rfl

theorem runScrape_ready (t : List ScrapeOutcome) :
    ∀ s : ScrapeState, s.ready = !s.firstSuccess →
      ((runScrape s t).ready = !(runScrape s t).firstSuccess)
      ∧ ((runScrape s t).ready = true ↔ (s.ready = true ∨ hasSuccess t)) := by
  induction t with
  | nil =>
    intro s hinv
    refine ⟨hinv, ?_⟩
    show s.ready = true ↔ s.ready = true ∨ hasSuccess []
    simp [hasSuccess]
  | cons o rest ih =>
    intro s hinv
    have hinv2 : (scrapeStep s o).ready = !(scrapeStep s o).firstSuccess := by
      rw [scrapeStep_ready, scrapeStep_firstSuccess]
      cases o with
      | pipelineErr => exact hinv
      | serializeErr => exact hinv
      | ok j n =>
        by_cases h2 : s.firstSuccess
        · simp [h2]
        · have h2f : s.firstSuccess = false := by simpa using h2
          simp [h2f, hinv]
    have hstep := ih (scrapeStep s o) hinv2
    refine ⟨hstep.1, ?_⟩
    show (runScrape (scrapeStep s o) rest).ready = true ↔ _
    rw [hstep.2, hasSuccess_cons]
    rw [scrapeStep_ready]
    cases o with
    | pipelineErr =>
      constructor
      · rintro (h | h)
        · exact Or.inl h
        · exact Or.inr (Or.inr h)
      · rintro (h | h | h)
        · exact Or.inl h
        · exact absurd h (by simp [ScrapeOutcome.isOk])
        · exact Or.inr h
    | serializeErr =>
      constructor
      · rintro (h | h)
        · exact Or.inl h
        · exact Or.inr (Or.inr h)
      · rintro (h | h | h)
        · exact Or.inl h
        · exact absurd h (by simp [ScrapeOutcome.isOk])
        · exact Or.inr h
    | ok j n =>
      have hready : (if s.firstSuccess then true else s.ready) = true := by
        by_cases h2 : s.firstSuccess
        · simp [h2]
        · have h2f : s.firstSuccess = false := by simpa using h2
          simp [h2f, hinv]
      simp [hready, ScrapeOutcome.isOk]

/-- C2: starting from the initial loop state, the ready flag is observed
true exactly when some iteration has succeeded, and a reader who observes
ready = true reads a cache holding the complete serialization of a
successful pipeline run (namely the most recent one). -/
theorem C2_ready_means_cached_success (json0 : String)
    (t : List ScrapeOutcome) :
    ((runScrape (initScrapeState json0) t).ready = true ↔ hasSuccess t)
    ∧ ((runScrape (initScrapeState json0) t).ready = true →
        ∃ j n, ScrapeOutcome.ok j n ∈ t
          ∧ (runScrape (initScrapeState json0) t).json = j) := by
  have h := runScrape_ready t (initScrapeState json0) rfl
  have hiff : (runScrape (initScrapeState json0) t).ready = true ↔
      hasSuccess t := by
    rw [h.2]
    constructor
    · rintro (hfalse | hs)
      · exact absurd hfalse (by simp [initScrapeState])
      · exact hs
    · exact Or.inr
  refine ⟨hiff, fun hr => ?_⟩
  obtain ⟨j, n, hmem, hlast⟩ := lastOkJson_of_success t (hiff.mp hr)
  refine ⟨j, n, hmem, ?_⟩
  rw [runScrape_json, hlast]
  rfl

/-- C2 witness: after a trace holding one successful scrape, ready is true
and the cache is the serialization of that iteration. -/
theorem C2_witness :
    ∃ j n, ScrapeOutcome.ok j n ∈ [ScrapeOutcome.ok "thegraph" 3]
      ∧ (runScrape (initScrapeState "seed") [ScrapeOutcome.ok "thegraph" 3]).json
        = j :=
  (C2_ready_means_cached_success "seed" [ScrapeOutcome.ok "thegraph" 3]).2
    (by decide)

/-- C3: an iteration whose pipeline fails, or whose graph fails to
serialize, leaves the cached JSON and the ready flag unchanged, increments
the upstream-error counter by one, and the loop proceeds with the next
iteration. -/
theorem C3_failed_iteration_frame (s : ScrapeState) (t : List ScrapeOutcome)
    (o : ScrapeOutcome) (ho : o.isOk = false) :
    (scrapeStep s o).json = s.json
    ∧ (scrapeStep s o).ready = s.ready
    ∧ (scrapeStep s o).upstreamErrors = s.upstreamErrors + 1
    ∧ runScrape s (o :: t) = runScrape (scrapeStep s o) t := by
  cases o with
  | ok j n => exact absurd ho (by simp [ScrapeOutcome.isOk])
  | pipelineErr =>
    exact ⟨scrapeStep_json s _, scrapeStep_ready s _,
      scrapeStep_upstreamErrors s _, rfl⟩
  | serializeErr =>
    exact ⟨scrapeStep_json s _, scrapeStep_ready s _,
      scrapeStep_upstreamErrors s _, rfl⟩

/-- C3 witness: the frame facts evaluated on a failing first iteration. -/
theorem C3_witness :
    (scrapeStep (initScrapeState "seed") .pipelineErr).json
        = (initScrapeState "seed").json
    ∧ (scrapeStep (initScrapeState "seed") .pipelineErr).ready
        = (initScrapeState "seed").ready
    ∧ (scrapeStep (initScrapeState "seed") .pipelineErr).upstreamErrors
        = (initScrapeState "seed").upstreamErrors + 1
    ∧ runScrape (initScrapeState "seed") [.pipelineErr]
        = runScrape (scrapeStep (initScrapeState "seed") .pipelineErr) [] :=
  C3_failed_iteration_frame (initScrapeState "seed") [] .pipelineErr (by decide)

/-! ## C5: the node-remove plugin -/

theorem nodeRemoveRun_eq (kp : String) (io : InternalIo) :
    nodeRemoveRun kp io = .ok
      { graph := (io.graph.remove_releases
          ((io.graph.find_by_metadata_pair (kp ++ "." ++ "release.remove")
            "true").map Prod.fst)).1,
        parameters := io.parameters } := rfl

theorem remove_releases_nodes (g : Graph) (ids : List Nat) :
    (g.remove_releases ids).1.nodes = g.nodes.filter (fun p => p.1 ∉ ids) :=
  rfl

theorem remove_releases_edges (g : Graph) (ids : List Nat) :
    (g.remove_releases ids).1.edges =
      g.edges.filter (fun e => e.1 ∉ ids ∧ e.2 ∉ ids) :=
  rfl

theorem find_by_metadata_pair_map_fst (g : Graph) (k v : String) :
    (g.find_by_metadata_pair k v).map Prod.fst =
      (g.nodes.filter (fun p => mlookup p.2.metadata k = some v)).map
        Prod.fst := by
  unfold Graph.find_by_metadata_pair
  rw [List.map_map]
  rfl

/-- C5: the node-remove plugin returns a graph from which exactly the
releases whose metadata maps the key key_prefix.release.remove to "true" have
been removed, together with every edge incident to one of them; all other
releases and the envelope parameters pass through unchanged.  The
release-ids of a graph are pairwise distinct (they are stable handles). -/
theorem C5_node_remove_removes_marked (kp : String) (io : InternalIo)
    (hids : (io.graph.nodes.map Prod.fst).Nodup) :
    ∃ out, nodeRemoveRun kp io = .ok out
      ∧ out.graph.nodes = io.graph.nodes.filter
          (fun p => ¬ mlookup p.2.metadata (kp ++ "." ++ "release.remove")
              = some "true")
      ∧ out.graph.edges = io.graph.edges.filter
          (fun e => e.1 ∉ (io.graph.nodes.filter
              (fun p => mlookup p.2.metadata (kp ++ "." ++ "release.remove")
                = some "true")).map Prod.fst
            ∧ e.2 ∉ (io.graph.nodes.filter
              (fun p => mlookup p.2.metadata (kp ++ "." ++ "release.remove")
                = some "true")).map Prod.fst)
      ∧ out.parameters = io.parameters := by
  refine ⟨_, nodeRemoveRun_eq kp io, ?_, ?_, rfl⟩
  · show (io.graph.remove_releases _).1.nodes = _
    rw [remove_releases_nodes, find_by_metadata_pair_map_fst]
    apply List.filter_congr
    intro p hp
    rw [decide_eq_decide]
    constructor
    · intro hnot hpred
      exact hnot (List.mem_map_of_mem Prod.fst
        (List.mem_filter.mpr ⟨hp, by simpa using hpred⟩))
    · intro hnpred hmem
      obtain ⟨q, hqmem, hq1⟩ := List.mem_map.mp hmem
      have hq := List.mem_filter.mp hqmem
      have hqp : q = p := List.inj_on_of_nodup_map hids hq.1 hp hq1
      apply hnpred
      rw [← hqp]
      simpa using hq.2
  · show (io.graph.remove_releases _).1.edges = _
    rw [remove_releases_edges, find_by_metadata_pair_map_fst]

/-- C5 witness: the S1 seed of the spec, releases 0 and 2 marked for
removal, release 1 kept with no incident edges left. -/
theorem C5_witness :
    ∃ out, nodeRemoveRun "p"
        ⟨⟨[(0, ⟨"0.0.0", "image-0", [("p.release.remove", "true")]⟩),
           (1, ⟨"0.0.1", "image-1", []⟩),
           (2, ⟨"0.0.2", "image-2", [("p.release.remove", "true")]⟩)],
          [(0, 1), (1, 2)]⟩, []⟩ = .ok out
      ∧ out.graph.nodes =
          ([(0, ⟨"0.0.0", "image-0", [("p.release.remove", "true")]⟩),
            (1, ⟨"0.0.1", "image-1", []⟩),
            (2, ⟨"0.0.2", "image-2",
              [("p.release.remove", "true")]⟩)] : List (Nat × Release)).filter
            (fun p => ¬ mlookup p.2.metadata ("p" ++ "." ++ "release.remove")
              = some "true")
      ∧ out.graph.edges =
          ([(0, 1), (1, 2)] : List (Nat × Nat)).filter
            (fun e => e.1 ∉ (([(0, ⟨"0.0.0", "image-0",
                  [("p.release.remove", "true")]⟩),
                (1, ⟨"0.0.1", "image-1", []⟩),
                (2, ⟨"0.0.2", "image-2",
                  [("p.release.remove", "true")]⟩)] : List (Nat × Release)).filter
                (fun p => mlookup p.2.metadata
                  ("p" ++ "." ++ "release.remove") = some "true")).map Prod.fst
              ∧ e.2 ∉ (([(0, ⟨"0.0.0", "image-0",
                  [("p.release.remove", "true")]⟩),
                (1, ⟨"0.0.1", "image-1", []⟩),
                (2, ⟨"0.0.2", "image-2",
                  [("p.release.remove", "true")]⟩)] : List (Nat × Release)).filter
                (fun p => mlookup p.2.metadata
                  ("p" ++ "." ++ "release.remove") = some "true")).map Prod.fst)
      ∧ out.parameters = [] :=
  C5_node_remove_removes_marked "p"
    ⟨⟨[(0, ⟨"0.0.0", "image-0", [("p.release.remove", "true")]⟩),
       (1, ⟨"0.0.1", "image-1", []⟩),
       (2, ⟨"0.0.2", "image-2", [("p.release.remove", "true")]⟩)],
      [(0, 1), (1, 2)]⟩, []⟩ (by decide)

/-! ## C4: all-or-nothing metadata fetch -/

/-- The error of the first failing label fetch over the releases carrying
a manifestref, in processing order, if any. -/
def firstFetchError
    (fetch : String → Except String (List (String × String))) :
    List (Nat × String × String) → Option String
  | [] => none
  | (_, _, manifestref) :: rest =>
    match fetch manifestref with
    | .error e => some e
    | .ok _ => firstFetchError fetch rest

theorem gatherLabels_error_of_firstFetchError
    (fetch : String → Except String (List (String × String))) :
    ∀ (refs : List (Nat × String × String)) (e : String),
      firstFetchError fetch refs = some e →
      gatherLabels fetch refs = .error e := by
  intro refs
  induction refs with
  | nil => intro e he; exact absurd he (by simp [firstFetchError])
  | cons r rest ih =>
    obtain ⟨a, b, m⟩ := r
    intro e he
    cases hf : fetch m with
    | error e0 =>
      have heq : some e0 = some e := by
        rw [← he]
        simp only [firstFetchError, hf]
      injection heq with heq
      subst heq
      simp only [gatherLabels, hf]
    | ok ls =>
      have hrest : firstFetchError fetch rest = some e := by
        rw [← he]
        simp only [firstFetchError, hf]
      simp only [gatherLabels, hf, ih e hrest]

theorem firstFetchError_isSome_of_failure
    (fetch : String → Except String (List (String × String))) :
    ∀ (refs : List (Nat × String × String))
      (r : Nat × String × String), r ∈ refs →
      ∀ e, fetch r.2.2 = .error e →
      ∃ e2, firstFetchError fetch refs = some e2 := by
  intro refs
  induction refs with
  | nil => intro r hr; exact absurd hr (List.not_mem_nil r)
  | cons x rest ih =>
    obtain ⟨a, b, m⟩ := x
    intro r hr e he
    cases hf : fetch m with
    | error e0 =>
      refine ⟨e0, ?_⟩
      simp only [firstFetchError, hf]
    | ok ls =>
      rcases List.mem_cons.mp hr with hx | hx
      · subst hx
        rw [he] at hf
        exact absurd hf (by simp)
      · obtain ⟨e2, he2⟩ := ih r hx e he
        refine ⟨e2, ?_⟩
        simp only [firstFetchError, hf]
        exact he2

/-- C4: if fetching the labels of any single manifestref fails, the quay
metadata plugin returns an error (the one of the first failing fetch in
processing order) and produces no output envelope at all, so no node
metadata is modified: the run is all-or-nothing. -/
theorem C4_quay_fetch_all_or_nothing
    (fetch : String → Except String (List (String × String)))
    (manifestrefKey : String) (io : InternalIo)
    (r : Nat × String × String)
    (hr : r ∈ io.graph.find_by_metadata_key manifestrefKey)
    (e : String) (he : fetch r.2.2 = .error e) :
    ∃ e2, firstFetchError fetch
        (io.graph.find_by_metadata_key manifestrefKey) = some e2
      ∧ quayRun fetch manifestrefKey io = .error e2
      ∧ ∀ out, quayRun fetch manifestrefKey io ≠ .ok out := by
  obtain ⟨e2, he2⟩ := firstFetchError_isSome_of_failure fetch
    (io.graph.find_by_metadata_key manifestrefKey) r hr e he
  have hq : quayRun fetch manifestrefKey io = .error e2 := by
    unfold quayRun
    rw [gatherLabels_error_of_firstFetchError fetch _ e2 he2]
  refine ⟨e2, he2, hq, fun out hcon => ?_⟩
  rw [hq] at hcon
  exact absurd hcon (by simp)

/-- C4 witness: a single release carrying a manifestref whose label fetch
fails aborts the run with that error. -/
theorem C4_witness :
    ∃ e2, firstFetchError (fun _ => .error "transport down")
        ((Graph.mk [(0, ⟨"v", "img", [("mk", "sha256-a")]⟩)] []
          ).find_by_metadata_key "mk") = some e2
      ∧ quayRun (fun _ => .error "transport down") "mk"
          ⟨⟨[(0, ⟨"v", "img", [("mk", "sha256-a")]⟩)], []⟩, []⟩ = .error e2
      ∧ ∀ out, quayRun (fun _ => .error "transport down") "mk"
          ⟨⟨[(0, ⟨"v", "img", [("mk", "sha256-a")]⟩)], []⟩, []⟩ ≠ .ok out :=
  C4_quay_fetch_all_or_nothing (fun _ => .error "transport down") "mk"
    ⟨⟨[(0, ⟨"v", "img", [("mk", "sha256-a")]⟩)], []⟩, []⟩
    (0, "v", "sha256-a") (by decide) "transport down" rfl

/-! ## C6: label collisions overwrite and warn -/

theorem minsert_lookup_self :
    ∀ (m : List (String × String)) (k v : String),
      mlookup (minsert m k v).1 k = some v := by
  intro m
  induction m with
  | nil => intro k v; simp [minsert, mlookup]
  | cons kv rest ih =>
    obtain ⟨k0, v0⟩ := kv
    intro k v
    by_cases hk : k0 = k
    · subst hk
      simp [minsert, mlookup]
    · cases hm : minsert rest k v with
      | mk m2 prev =>
        have : minsert ((k0, v0) :: rest) k v = ((k0, v0) :: m2, prev) := by
          unfold minsert
          rw [if_neg hk, hm]
        rw [this]
        show mlookup ((k0, v0) :: m2) k = some v
        have hl : mlookup ((k0, v0) :: m2) k = mlookup m2 k := by
          simp [mlookup, List.find?, hk]
        rw [hl]
        have := ih k v
        rw [hm] at this
        exact this

theorem minsert_lookup_other :
    ∀ (m : List (String × String)) (k v k2 : String), k2 ≠ k →
      mlookup (minsert m k v).1 k2 = mlookup m k2 := by
  intro m
  induction m with
  | nil =>
    intro k v k2 hne
    simp [minsert, mlookup, List.find?, Ne.symm hne]
  | cons kv rest ih =>
    obtain ⟨k0, v0⟩ := kv
    intro k v k2 hne
    by_cases hk : k0 = k
    · subst hk
      by_cases h2 : k0 = k2
      · exact absurd h2.symm hne
      · simp [minsert, mlookup, List.find?, h2]
    · cases hm : minsert rest k v with
      | mk m2 prev =>
        have heq : minsert ((k0, v0) :: rest) k v = ((k0, v0) :: m2, prev) := by
          unfold minsert
          rw [if_neg hk, hm]
        rw [heq]
        by_cases h2 : k0 = k2
        · subst h2
          simp [mlookup, List.find?]
        · have hl : mlookup ((k0, v0) :: m2) k2 = mlookup m2 k2 := by
            simp [mlookup, List.find?, h2]
          have hr : mlookup ((k0, v0) :: rest) k2 = mlookup rest k2 := by
            simp [mlookup, List.find?, h2]
          rw [hl, hr]
          have := ih k v k2 hne
          rw [hm] at this
          exact this

theorem minsert_snd_lookup :
    ∀ (m : List (String × String)) (k v : String),
      (minsert m k v).2 = mlookup m k := by
  intro m
  induction m with
  | nil => intro k v; simp [minsert, mlookup]
  | cons kv rest ih =>
    obtain ⟨k0, v0⟩ := kv
    intro k v
    by_cases hk : k0 = k
    · subst hk
      simp [minsert, mlookup, List.find?]
    · cases hm : minsert rest k v with
      | mk m2 prev =>
        have heq : minsert ((k0, v0) :: rest) k v = ((k0, v0) :: m2, prev) := by
          unfold minsert
          rw [if_neg hk, hm]
        rw [heq]
        show prev = mlookup ((k0, v0) :: rest) k
        have hr : mlookup ((k0, v0) :: rest) k = mlookup rest k := by
          simp [mlookup, List.find?, hk]
        rw [hr]
        have := ih k v
        rw [hm] at this
        exact this

theorem insertLabel_fst (ver : String) (m : List (String × String))
    (k v : String) : (insertLabel ver m k v).1 = (minsert m k v).1 := by
  unfold insertLabel
  cases hm : minsert m k v with
  | mk m2 prev => cases prev <;> rfl

theorem insertLabel_snd (ver : String) (m : List (String × String))
    (k v : String) :
    (insertLabel ver m k v).2
      = (mlookup m k).map (fun prev => ⟨ver, k, v, prev⟩) := by
  unfold insertLabel
  rw [← minsert_snd_lookup m k v]
  cases hm : minsert m k v with
  | mk m2 prev => cases prev <;> rfl

/-- C6: merging one fetched label (k, v) into a release metadata map, as
the quay metadata plugin does for every node and every fetched label: the
metadata afterwards maps k to the fetched value v, every other key is
untouched, and a warning carrying the previous value is emitted exactly
when the key already existed (when it did not, the label is simply
inserted and nothing is warned). -/
theorem C6_label_merge_overwrites_and_warns (ver : String)
    (m : List (String × String)) (k v : String) :
    mlookup (insertLabel ver m k v).1 k = some v
    ∧ (∀ k2, k2 ≠ k →
        mlookup (insertLabel ver m k v).1 k2 = mlookup m k2)
    ∧ (insertLabel ver m k v).2
        = (mlookup m k).map (fun prev => ⟨ver, k, v, prev⟩) := by
  refine ⟨?_, ?_, insertLabel_snd ver m k v⟩
  · rw [insertLabel_fst]
    exact minsert_lookup_self m k v
  · intro k2 hne
    rw [insertLabel_fst]
    exact minsert_lookup_other m k v k2 hne

/-- C6 witness: the S3 seed of the spec; existing metadata k maps to v1,
the fetched label carries v2: afterwards k maps to v2, other keys are
unchanged, and the emitted warning references the previous value v1. -/
theorem C6_witness :
    mlookup (insertLabel "0.0.1" [("k", "v1")] "k" "v2").1 "k" = some "v2"
    ∧ mlookup (insertLabel "0.0.1" [("k", "v1")] "k" "v2").1 "other"
        = mlookup [("k", "v1")] "other"
    ∧ (insertLabel "0.0.1" [("k", "v1")] "k" "v2").2
        = some ⟨"0.0.1", "k", "v2", "v1"⟩ := by
  have h := C6_label_merge_overwrites_and_warns "0.0.1" [("k", "v1")] "k" "v2"
  refine ⟨h.1, h.2.1 "other" (by decide), ?_⟩
  rw [h.2.2]
  decide

end Cincinnati
